import Mathlib

/-!
Verification of the history-rewrite orchestration engine of
`git_interactive_rebase.py` (plan builder, instruction emitter, rebase
driver, anchor tracker).

The repository contains two drivers:
* `src/lib/app_window.py`, `run_interactive_rebase` (lines 1407-1529): the
  optimized driver with common-prefix minimization, reset fast-track,
  rephrase messages written to temp files (`exec git commit --amend -F`);
* `src/git_interactive_rebase.py`, `run_interactive_rebase` (lines
  921-1002): the legacy driver, always full range, rephrase messages
  embedded inline (`exec git commit --amend -m` with a shlex-quoted
  message), anchor recomputed via `git rev-parse HEAD~{n-1}`.

Both are embedded below.  SHAs are the strings the tool manipulates.
External git subprocess outcomes are supplied by a `GitEnv`; the commands
the drivers issue are recorded as a `GitCmd` trace.
-/

namespace GitRebase

/-- Commit identifiers, as the tool handles them: hexadecimal strings. -/
abbrev Sha := String

/-- Transcribes the test on line 1428 of `src/lib/app_window.py`:
`old == new and (not rephrase_map or old not in rephrase_map) and
(not squash_shas or old not in squash_shas)`.  The rephrase map is an
association list (keys are SHAs), the squash set a list of SHAs; an empty
map / set makes the corresponding membership test vacuously pass, exactly
as the Python truthiness guards do. -/
def isCommon (reph : List (Sha × String)) (squ : List Sha) (o n : Sha) : Bool :=
  o == n && !(reph.any fun p => p.1 == o) && !(squ.contains o)

/-- Transcribes the common-prefix walk of `run_interactive_rebase`
(`src/lib/app_window.py` lines 1425-1431): walk the two oldest-first
sequences together, counting positions while the commit is common, and
stop at the first position where it is not. -/
def commonCount (reph : List (Sha × String)) (squ : List Sha) :
    List Sha → List Sha → Nat
  | o :: os, n :: ns =>
    if isCommon reph squ o n then commonCount reph squ os ns + 1 else 0
  | _, _ => 0

/-- Modelled from the spec (§4.2 step 1): "A commit at position *i* is part
of the *unchanged prefix* iff: same SHA at the same position in both
sequences, AND it is not a rephrase target, AND it is not a member of the
squash set.  The walk stops at the first position violating any
condition."  Formalised as the length of the longest initial run of
paired positions satisfying the condition, i.e. the first failing
position (or the full common length when none fails). -/
def specCommonLen (reph : List (Sha × String)) (squ : List Sha)
    (oldOrder newOrder : List Sha) : Nat :=
  ((oldOrder.zip newOrder).takeWhile fun p => isCommon reph squ p.1 p.2).length

/-- Transcribes the squash edge correction (`src/lib/app_window.py` lines
1434-1447): starting from `commonCount`, if the first commit of the
replay suffix is in the squash set, either step the prefix back by one
(when the prefix had length > 1) or fall back to the full-range case
(prefix length exactly 1 becomes 0). -/
def adjustedFrom (squ : List Sha) (cc : Nat) : List Sha → Nat
  | [] => cc
  | t :: _ =>
    if 0 < cc then
      if squ.contains t then (if 1 < cc then cc - 1 else 0) else cc
    else cc

/-- The prefix length after the squash edge correction: `adjustedFrom`
applied to the walk's count and the replay suffix it induces. -/
def adjustedCount (reph : List (Sha × String)) (squ : List Sha)
    (oldOrder newOrder : List Sha) : Nat :=
  adjustedFrom squ (commonCount reph squ oldOrder newOrder)
    (newOrder.drop (commonCount reph squ oldOrder newOrder))

/-- The SHAs that must be replayed: `proposed_order[common_count:]` after
the squash edge correction (`src/lib/app_window.py` lines 1436, 1444,
1459). -/
def planTodoShas (reph : List (Sha × String)) (squ : List Sha)
    (oldOrder newOrder : List Sha) : List Sha :=
  newOrder.drop (adjustedCount reph squ oldOrder newOrder)

/-- The upstream argument handed to `git rebase -i --autosquash`:
either a concrete SHA (`old_order[common_count - 1]`), the session base's
parent (`f"{self.commit_sha}^"`), or `--root`. -/
inductive Upstream where
  | sha (s : Sha)
  | baseParent
  | root
deriving DecidableEq, Repr

/-- Transcribes the upstream selection (`src/lib/app_window.py` lines
1434-1435 and 1449-1458): the last common commit when the (adjusted)
prefix is non-empty, otherwise the base's parent or the repository root
depending on whether `git rev-parse {commit_sha}^` succeeds. -/
def planUpstream (reph : List (Sha × String)) (squ : List Sha)
    (oldOrder newOrder : List Sha) (hasParent : Bool) : Upstream :=
  let cc := adjustedCount reph squ oldOrder newOrder
  if 0 < cc then Upstream.sha (oldOrder.getD (cc - 1) "")
  else if hasParent then Upstream.baseParent else Upstream.root

/-- The resolved plan: either the fast-track `git reset --hard <sha>`
(lines 1462-1465) or a rebase with a todo list. -/
inductive PlanAction where
  | resetHard (s : Sha)
  | rebase (upstream : Upstream) (todoShas : List Sha)
deriving DecidableEq, Repr

/-- The plan-building portion of `run_interactive_rebase`
(`src/lib/app_window.py` lines 1415-1465), as a pure function of the
displayed order (newest-first), the requested new order (newest-first),
the rephrase map, the squash set, and the result of the parent probe.
Both orders are reversed to oldest-first first (lines 1422-1423). -/
def buildPlan (reph : List (Sha × String)) (squ : List Sha)
    (displayShas newShas : List Sha) (hasParent : Bool) : PlanAction :=
  let oldOrder := displayShas.reverse
  let newOrder := newShas.reverse
  let cc := adjustedCount reph squ oldOrder newOrder
  let todo := planTodoShas reph squ oldOrder newOrder
  if todo = [] ∧ 0 < cc then PlanAction.resetHard (oldOrder.getD (cc - 1) "")
  else PlanAction.rebase (planUpstream reph squ oldOrder newOrder hasParent) todo

/-! ### Characterization lemmas for the common-prefix walk -/

theorem commonCount_le_left (reph : List (Sha × String)) (squ : List Sha) :
    ∀ (ol nl : List Sha), commonCount reph squ ol nl ≤ ol.length := by
  intro ol
  induction ol with
  | nil => intro nl; cases nl <;> simp [commonCount]
  | cons o os ih =>
    intro nl
    cases nl with
    | nil => simp [commonCount]
    | cons n ns =>
      by_cases h : isCommon reph squ o n = true
      · simpa [commonCount, h, Nat.succ_le_succ_iff] using ih ns
      · simp [commonCount, h]

theorem commonCount_le_right (reph : List (Sha × String)) (squ : List Sha) :
    ∀ (ol nl : List Sha), commonCount reph squ ol nl ≤ nl.length := by
  intro ol
  induction ol with
  | nil => intro nl; cases nl <;> simp [commonCount]
  | cons o os ih =>
    intro nl
    cases nl with
    | nil => simp [commonCount]
    | cons n ns =>
      by_cases h : isCommon reph squ o n = true
      · simpa [commonCount, h, Nat.succ_le_succ_iff] using ih ns
      · simp [commonCount, h]

/-- Every position strictly below the computed prefix length satisfies the
common-commit condition. -/
theorem isCommon_of_lt_commonCount (reph : List (Sha × String)) (squ : List Sha) :
    ∀ (ol nl : List Sha) (i : Nat), i < commonCount reph squ ol nl →
      isCommon reph squ (ol.getD i "") (nl.getD i "") = true := by
  intro ol
  induction ol with
  | nil => intro nl i h; cases nl <;> simp [commonCount] at h
  | cons o os ih =>
    intro nl i h
    cases nl with
    | nil => simp [commonCount] at h
    | cons n ns =>
      by_cases hc : isCommon reph squ o n = true
      · cases i with
        | zero => simpa using hc
        | succ j =>
          simp only [commonCount, hc, if_true] at h
          exact ih ns j (Nat.lt_of_succ_lt_succ h)
      · simp [commonCount, hc] at h

/-- From a successful common-commit test, extract its three components. -/
theorem isCommon_components {reph : List (Sha × String)} {squ : List Sha}
    {o n : Sha} (h : isCommon reph squ o n = true) :
    o = n ∧ (reph.any fun p => p.1 == o) = false ∧ squ.contains o = false := by
  simp only [isCommon, Bool.and_eq_true, Bool.not_eq_true'] at h
  exact ⟨by simpa using h.1.1, h.1.2, h.2⟩

/-- C1.  Common-prefix walk condition: the loop of
`run_interactive_rebase` (lines 1425-1431), walking the old and new
orders oldest-first, computes exactly the length of the longest initial
run of positions at which the SHA is identical in both sequences, is not
a key of the rephrase map and is not a member of the squash set — i.e.
the first position at which any of these conditions fails, or the full
common length when none fails (`specCommonLen`, modelled from the
spec). -/
theorem commonCount_eq_specCommonLen (reph : List (Sha × String)) (squ : List Sha)
    (oldOrder newOrder : List Sha) :
    commonCount reph squ oldOrder newOrder = specCommonLen reph squ oldOrder newOrder := by
  induction oldOrder generalizing newOrder with
  | nil => cases newOrder <;> simp [commonCount, specCommonLen]
  | cons o os ih =>
    cases newOrder with
    | nil => simp [commonCount, specCommonLen]
    | cons n ns =>
      by_cases h : isCommon reph squ o n = true
      · simp [commonCount, specCommonLen, List.takeWhile_cons, h] at ih ⊢
        exact ih ns
      · simp [commonCount, specCommonLen, List.takeWhile_cons, h]

/-! ### Instruction emission

The sequence-editor programs generated by the two drivers write one line
per replayed SHA — `pick <sha>` or `squash <sha>` — optionally followed by
a message-amend `exec` line.  The optimized driver's amend line is
`exec git commit --amend -F <path>` referencing a temp file holding the
message (`src/lib/app_window.py` lines 1486-1492); the legacy driver's
amend line is `exec git commit --amend -m <msg>` with the shlex-quoted
message embedded in the line itself (`src/git_interactive_rebase.py`
lines 951-958).  The constructors carry exactly the data each line
embeds. -/

inductive TodoLine where
  | pick (s : Sha)
  | squash (s : Sha)
  /-- `exec git commit --amend -F <path>`: message referenced by file path. -/
  | execAmendFile (path : String)
  /-- `exec git commit --amend -m <msg>`: message embedded in the line. -/
  | execAmendMsg (msg : String)
deriving DecidableEq, Repr

/-- Deterministic model of the fresh temp-file path
`tempfile.NamedTemporaryFile(..., suffix='.txt')` allocates for a
rephrase message (`src/lib/app_window.py` line 1473); distinct SHAs get
distinct paths, as distinct `NamedTemporaryFile` calls do. -/
def msgPath (s : Sha) : String := "/tmp/rephrase-" ++ s ++ ".txt"

/-- The `msg_files` dict built at lines 1469-1476: one entry per rephrase
target that is inside the replay window, mapping the SHA to its message
file's path. -/
def msgFiles (reph : List (Sha × String)) (todoShas : List Sha) :
    List (Sha × String) :=
  reph.filterMap fun p =>
    if todoShas.contains p.1 then some (p.1, msgPath p.1) else none

/-- The temp-file writes performed at lines 1469-1476: each rephrase
target inside the replay window gets its message written to its own
file, recorded as a (path, contents) pair. -/
def msgFileWrites (reph : List (Sha × String)) (todoShas : List Sha) :
    List (String × String) :=
  reph.filterMap fun p =>
    if todoShas.contains p.1 then some (msgPath p.1, p.2) else none

/-- The todo written by the optimized driver's generated sequence editor
(`src/lib/app_window.py` lines 1486-1492): per SHA a `squash`/`pick`
line, followed by `exec git commit --amend -F <path>` when the SHA has a
message file. -/
def emitTodo (squ : List Sha) (files : List (Sha × String)) :
    List Sha → List TodoLine
  | [] => []
  | s :: rest =>
    (if squ.contains s then TodoLine.squash s else TodoLine.pick s) ::
      match files.lookup s with
      | some p => TodoLine.execAmendFile p :: emitTodo squ files rest
      | none => emitTodo squ files rest

/-- The todo written by the legacy driver's generated sequence editor
(`src/git_interactive_rebase.py` lines 951-958): per SHA a
`squash`/`pick` line, followed by `exec git commit --amend -m <msg>`
(message shlex-quoted into the line) when the SHA is a rephrase
target. -/
def emitTodoLegacy (squ : List Sha) (reph : List (Sha × String)) :
    List Sha → List TodoLine
  | [] => []
  | s :: rest =>
    (if squ.contains s then TodoLine.squash s else TodoLine.pick s) ::
      match reph.lookup s with
      | some m => TodoLine.execAmendMsg m :: emitTodoLegacy squ reph rest
      | none => emitTodoLegacy squ reph rest

/-- Does a todo contain any line with a message embedded inline? -/
def hasInlineMsg (lines : List TodoLine) : Bool :=
  lines.any fun l =>
    match l with
    | TodoLine.execAmendMsg _ => true
    | _ => false

/-! ### The rebase drivers -/

/-- The git subprocess invocations the drivers issue, in order. -/
inductive GitCmd where
  /-- `git rev-parse {s}^` (the parent probe). -/
  | revParseParent (s : Sha)
  /-- `git reset --hard {s}`. -/
  | resetHardCmd (s : Sha)
  /-- `git rebase -i --autosquash {upstream}` with the generated
  sequence editor wired in via `GIT_SEQUENCE_EDITOR`. -/
  | rebaseCmd (u : Upstream)
  /-- `git rebase --abort`. -/
  | rebaseAbort
  /-- `git rev-parse HEAD~{n}`. -/
  | revParseBack (n : Nat)
deriving DecidableEq, Repr

/-- Outcomes of the external git subprocesses, supplied by the
environment: whether the parent probe succeeds, whether `reset --hard`
succeeds, the exit code of the rebase invocation, the resolution of
`git rev-parse HEAD~n` after a successful rebase, the new tip a
successful rebase leaves, and the position HEAD is left at when a rebase
stops on conflict. -/
structure GitEnv where
  parentExists : Bool
  resetOk : Bool
  rebaseExit : Nat
  headBack : Nat → Option Sha
  newTip : Sha
  conflictHead : Sha

/-- Everything observable about one driver invocation: the subprocess
trace, the boolean the Python method returns, the session anchor
`self.commit_sha` after the call, the temp message files written, and
the todo the generated sequence editor writes (empty on the reset
fast-track, which never reaches the rebase machinery). -/
structure RunOutcome where
  trace : List GitCmd
  ok : Bool
  commitSha : Sha
  msgWrites : List (String × String)
  todo : List TodoLine
deriving Repr

/-- Transcribes `run_interactive_rebase` of `src/lib/app_window.py`
(lines 1407-1529) as a function of the session anchor, the displayed
order (newest-first), the requested order (newest-first), the rephrase
map, the squash set and the environment.  Branches:
* fast-track (lines 1462-1465): empty replay suffix with non-empty
  prefix issues `git reset --hard` and returns `True` (a failing reset
  raises `CalledProcessError`, caught at line 1527, returning `False`);
* otherwise the rebase is invoked (line 1506); on exit 0 the anchor is
  set to `new_shas[-1]` when `new_shas` is non-empty (lines 1515-1519),
  on non-zero exit `git rebase --abort` is issued and `False` returned
  (lines 1520-1525).
The parent probe (lines 1450-1457) runs only when the adjusted prefix is
empty.  File-system operations (temp files, chmod, unlink) are assumed
to succeed. -/
def runInteractiveRebase (commitSha : Sha) (displayShas newShas : List Sha)
    (reph : List (Sha × String)) (squ : List Sha) (env : GitEnv) : RunOutcome :=
  let oldOrder := displayShas.reverse
  let newOrder := newShas.reverse
  let cc := adjustedCount reph squ oldOrder newOrder
  let todoShas := planTodoShas reph squ oldOrder newOrder
  let probe : List GitCmd :=
    if cc = 0 then [GitCmd.revParseParent commitSha] else []
  if todoShas = [] ∧ 0 < cc then
    let target := oldOrder.getD (cc - 1) ""
    if env.resetOk then
      { trace := probe ++ [GitCmd.resetHardCmd target], ok := true,
        commitSha := commitSha, msgWrites := [], todo := [] }
    else
      { trace := probe ++ [GitCmd.resetHardCmd target], ok := false,
        commitSha := commitSha, msgWrites := [], todo := [] }
  else
    let up := planUpstream reph squ oldOrder newOrder env.parentExists
    let writes := msgFileWrites reph todoShas
    let files := msgFiles reph todoShas
    let todo := emitTodo squ files todoShas
    if env.rebaseExit = 0 then
      { trace := probe ++ [GitCmd.rebaseCmd up], ok := true,
        commitSha := newShas.getLastD commitSha, msgWrites := writes,
        todo := todo }
    else
      { trace := probe ++ [GitCmd.rebaseCmd up, GitCmd.rebaseAbort],
        ok := false, commitSha := commitSha, msgWrites := writes,
        todo := todo }

/-- Transcribes `run_interactive_rebase` of
`src/git_interactive_rebase.py` (lines 921-1002): always probes the
parent, always rebases the full range (`{commit_sha}^` or `--root`), and
on success recomputes the anchor as `git rev-parse HEAD~{n-1}` (lines
980-990), keeping the old anchor when that resolution fails; on non-zero
exit it issues `git rebase --abort` and returns `False` (lines
991-998). -/
def runInteractiveRebaseLegacy (commitSha : Sha) (newShas : List Sha)
    (reph : List (Sha × String)) (squ : List Sha) (env : GitEnv) : RunOutcome :=
  let rebaseShas := newShas.reverse
  let todo := emitTodoLegacy squ reph rebaseShas
  let up : Upstream :=
    if env.parentExists then Upstream.baseParent else Upstream.root
  if env.rebaseExit = 0 then
    if 0 < newShas.length then
      match env.headBack (newShas.length - 1) with
      | some s =>
        { trace := [GitCmd.revParseParent commitSha, GitCmd.rebaseCmd up,
                    GitCmd.revParseBack (newShas.length - 1)],
          ok := true, commitSha := s, msgWrites := [], todo := todo }
      | none =>
        { trace := [GitCmd.revParseParent commitSha, GitCmd.rebaseCmd up,
                    GitCmd.revParseBack (newShas.length - 1)],
          ok := true, commitSha := commitSha, msgWrites := [], todo := todo }
    else
      { trace := [GitCmd.revParseParent commitSha, GitCmd.rebaseCmd up],
        ok := true, commitSha := commitSha, msgWrites := [], todo := todo }
  else
    { trace := [GitCmd.revParseParent commitSha, GitCmd.rebaseCmd up,
                GitCmd.rebaseAbort],
      ok := false, commitSha := commitSha, msgWrites := [], todo := todo }

/-! ### Abstract repository semantics -/

/-- Abstract repository state: current HEAD, whether a rebase is in
progress, and the HEAD saved when a rebase started (what an abort
restores). -/
structure RepoState where
  head : Sha
  midRebase : Bool
  savedHead : Sha
deriving DecidableEq, Repr

/-- Modelled from the spec (§4.4, §6, §7 — git itself is external to the
repository): the effect of each issued command.  `rev-parse` queries are
read-only; a successful `rebase` moves HEAD to the new tip; a failing
`rebase` leaves a rebase in progress with HEAD at the conflict point,
remembering the pre-rebase HEAD; `rebase --abort` restores that saved
HEAD and clears the in-progress state; `reset --hard s` moves HEAD to
`s` when it succeeds. -/
def applyCmd (env : GitEnv) (st : RepoState) : GitCmd → RepoState
  | GitCmd.revParseParent _ => st
  | GitCmd.revParseBack _ => st
  | GitCmd.resetHardCmd s => if env.resetOk then { st with head := s } else st
  | GitCmd.rebaseCmd _ =>
    if env.rebaseExit = 0 then
      { head := env.newTip, midRebase := false, savedHead := st.savedHead }
    else
      { head := env.conflictHead, midRebase := true, savedHead := st.head }
  | GitCmd.rebaseAbort =>
    if st.midRebase then
      { head := st.savedHead, midRebase := false, savedHead := st.savedHead }
    else st

/-- Run a command trace through the abstract repository semantics. -/
def runTrace (env : GitEnv) (st : RepoState) (cmds : List GitCmd) : RepoState :=
  cmds.foldl (applyCmd env) st

/-! ### Multi-squash marshalling -/

/-- The arguments `perform_multi_squash` passes to the unified rebase
handler. -/
structure MultiSquashCall where
  newShas : List Sha
  reph : List (Sha × String)
  squ : List Sha
deriving Repr

/-- Transcribes `perform_multi_squash` (`src/lib/app_window.py` lines
1086-1106): `base_sha = selected_shas[0]` (the list is collected in
display order, newest first, so this is the newest member),
`squash_shas = selected_shas[1:]`, and the rebase is invoked on the
unchanged display order with `rephrase_map = {base_sha: final_msg}`. -/
def multiSquashArgs (selectedShas : List Sha) (finalMsg : String)
    (allShas : List Sha) : MultiSquashCall :=
  { newShas := allShas,
    reph := [(selectedShas.headD "", finalMsg)],
    squ := selectedShas.tail }

/-! ### Concrete environments used by witnesses and counterexamples -/

/-- An environment in which every subprocess succeeds; `HEAD~n` resolves
to the (distinct, fresh) SHA `hn`. -/
def envOk : GitEnv :=
  { parentExists := true, resetOk := true, rebaseExit := 0,
    headBack := fun n => some ("h" ++ toString n),
    newTip := "tip", conflictHead := "mid" }

/-- An environment in which the rebase invocation exits with code 1. -/
def envFail : GitEnv :=
  { envOk with rebaseExit := 1 }

/-! ### Helper lemmas -/

theorem contains_of_mem {l : List Sha} {a : Sha} (h : a ∈ l) :
    l.contains a = true := by
  induction l with
  | nil => cases h
  | cons b bs ih =>
    rcases List.mem_cons.mp h with h1 | h2
    · subst h1; simp [List.contains_cons]
    · simp only [List.contains_cons, ih h2, Bool.or_true]

theorem commonCount_self (l : List Sha) : commonCount [] [] l l = l.length := by
  induction l with
  | nil => simp [commonCount]
  | cons a as ih => simp [commonCount, isCommon, ih]

theorem drop_eq_getD_cons {l : List Sha} {i : Nat} (h : i < l.length) :
    l.drop i = l.getD i "" :: l.drop (i + 1) := by
  rw [List.drop_eq_getElem_cons h, List.getD_eq_getElem?_getD,
    List.getElem?_eq_getElem h]
  rfl

theorem reverse_getD_last {l : List Sha} (h : l ≠ []) :
    l.reverse.getD (l.length - 1) "" = l.headD "" := by
  have hlt : l.length - 1 < l.length := by
    cases l with
    | nil => exact absurd rfl h
    | cons a as => simp
  rw [List.getD_eq_getElem?_getD, List.getElem?_reverse hlt, Nat.sub_self]
  cases l with
  | nil => exact absurd rfl h
  | cons a as => simp

theorem lt_length_of_drop_cons {l : List Sha} {i : Nat} {t : Sha}
    {rest : List Sha} (h : l.drop i = t :: rest) : i < l.length := by
  by_contra hc
  rw [List.drop_eq_nil_of_le (Nat.le_of_not_lt hc)] at h
  cases h

/-- Reduce `adjustedCount` when the replay suffix is non-empty. -/
theorem adjustedCount_of_drop_cons {reph : List (Sha × String)} {squ : List Sha}
    {oldOrder newOrder : List Sha} {t : Sha} {rest : List Sha}
    (hd : newOrder.drop (commonCount reph squ oldOrder newOrder) = t :: rest) :
    adjustedCount reph squ oldOrder newOrder =
      if 0 < commonCount reph squ oldOrder newOrder then
        (if squ.contains t then
          (if 1 < commonCount reph squ oldOrder newOrder then
            commonCount reph squ oldOrder newOrder - 1
          else 0)
        else commonCount reph squ oldOrder newOrder)
      else commonCount reph squ oldOrder newOrder := by
  unfold adjustedCount
  rw [hd]
  rfl

/-- Reduce `adjustedCount` when the replay suffix is empty. -/
theorem adjustedCount_of_drop_nil {reph : List (Sha × String)} {squ : List Sha}
    {oldOrder newOrder : List Sha}
    (hd : newOrder.drop (commonCount reph squ oldOrder newOrder) = []) :
    adjustedCount reph squ oldOrder newOrder
      = commonCount reph squ oldOrder newOrder := by
  unfold adjustedCount
  rw [hd]
  rfl

/-! ### Claim theorems -/

/-- C2.  Squash edge correction (lines 1438-1447): when the computed
prefix is non-empty and the replay suffix starts with a squash member,
either (prefix length > 1) the prefix shrinks by exactly one, the replay
suffix additionally begins with the preceding common commit — which is
identical in both orders and not a squash member, hence a `pick` — and
the upstream anchor moves one position older; or (prefix length exactly
1) the builder falls back to the full-range case, replaying everything
and anchoring at the base's parent, or at the repository root when the
base has no parent. -/
theorem squash_edge_correction (reph : List (Sha × String)) (squ : List Sha)
    (oldOrder newOrder : List Sha) (hasParent : Bool) (t : Sha) (rest : List Sha)
    (hd : newOrder.drop (commonCount reph squ oldOrder newOrder) = t :: rest)
    (ht : squ.contains t = true)
    (hcc : 0 < commonCount reph squ oldOrder newOrder) :
    (1 < commonCount reph squ oldOrder newOrder →
      adjustedCount reph squ oldOrder newOrder
          = commonCount reph squ oldOrder newOrder - 1 ∧
      planTodoShas reph squ oldOrder newOrder
          = oldOrder.getD (commonCount reph squ oldOrder newOrder - 1) ""
              :: t :: rest ∧
      squ.contains (oldOrder.getD (commonCount reph squ oldOrder newOrder - 1) "")
          = false ∧
      planUpstream reph squ oldOrder newOrder hasParent
          = Upstream.sha
              (oldOrder.getD (commonCount reph squ oldOrder newOrder - 2) "")) ∧
    (commonCount reph squ oldOrder newOrder = 1 →
      adjustedCount reph squ oldOrder newOrder = 0 ∧
      planTodoShas reph squ oldOrder newOrder = newOrder ∧
      planUpstream reph squ oldOrder newOrder hasParent
          = (if hasParent then Upstream.baseParent else Upstream.root)) := by
  have hlt : commonCount reph squ oldOrder newOrder < newOrder.length :=
    lt_length_of_drop_cons hd
  have hcom := isCommon_of_lt_commonCount reph squ oldOrder newOrder
    (commonCount reph squ oldOrder newOrder - 1) (Nat.sub_lt hcc Nat.one_pos)
  obtain ⟨heq, -, hsq⟩ := isCommon_components hcom
  constructor
  · intro h1
    have hadj : adjustedCount reph squ oldOrder newOrder
        = commonCount reph squ oldOrder newOrder - 1 := by
      rw [adjustedCount_of_drop_cons hd, if_pos hcc, if_pos ht, if_pos h1]
    have h2 : commonCount reph squ oldOrder newOrder - 1 < newOrder.length :=
      Nat.lt_of_le_of_lt (Nat.sub_le _ _) hlt
    have hsucc : commonCount reph squ oldOrder newOrder - 1 + 1
        = commonCount reph squ oldOrder newOrder := Nat.succ_pred_eq_of_pos hcc
    refine ⟨hadj, ?_, ?_, ?_⟩
    · unfold planTodoShas
      rw [hadj, drop_eq_getD_cons h2, hsucc, hd, heq]
    · exact hsq
    · unfold planUpstream
      rw [hadj]
      have h0 : 0 < commonCount reph squ oldOrder newOrder - 1 := by omega
      rw [if_pos h0]
      have h3 : commonCount reph squ oldOrder newOrder - 1 - 1
          = commonCount reph squ oldOrder newOrder - 2 := by omega
      rw [h3]
  · intro h1
    have hadj : adjustedCount reph squ oldOrder newOrder = 0 := by
      rw [adjustedCount_of_drop_cons hd, if_pos hcc, if_pos ht,
        if_neg (by omega : ¬1 < commonCount reph squ oldOrder newOrder)]
    refine ⟨hadj, ?_, ?_⟩
    · unfold planTodoShas
      rw [hadj]
      rfl
    · unfold planUpstream
      rw [hadj]
      rfl

/-- C2 witness: `old_order = new_order = [a, b, c, d]` (oldest-first)
with `c` in the squash set exercises the pushback case. -/
theorem squash_edge_correction_witness :
    (["a", "b", "c", "d"] : List Sha).drop
        (commonCount [] ["c"] ["a", "b", "c", "d"] ["a", "b", "c", "d"])
      = "c" :: ["d"] ∧
    (["c"] : List Sha).contains "c" = true ∧
    0 < commonCount [] ["c"] ["a", "b", "c", "d"] ["a", "b", "c", "d"] ∧
    ((1 < commonCount [] ["c"] ["a", "b", "c", "d"] ["a", "b", "c", "d"] →
      adjustedCount [] ["c"] ["a", "b", "c", "d"] ["a", "b", "c", "d"]
          = commonCount [] ["c"] ["a", "b", "c", "d"] ["a", "b", "c", "d"] - 1 ∧
      planTodoShas [] ["c"] ["a", "b", "c", "d"] ["a", "b", "c", "d"]
          = (["a", "b", "c", "d"] : List Sha).getD
              (commonCount [] ["c"] ["a", "b", "c", "d"] ["a", "b", "c", "d"] - 1) ""
              :: "c" :: ["d"] ∧
      (["c"] : List Sha).contains
          ((["a", "b", "c", "d"] : List Sha).getD
            (commonCount [] ["c"] ["a", "b", "c", "d"] ["a", "b", "c", "d"] - 1) "")
          = false ∧
      planUpstream [] ["c"] ["a", "b", "c", "d"] ["a", "b", "c", "d"] true
          = Upstream.sha
              ((["a", "b", "c", "d"] : List Sha).getD
                (commonCount [] ["c"] ["a", "b", "c", "d"] ["a", "b", "c", "d"] - 2) "")) ∧
    (commonCount [] ["c"] ["a", "b", "c", "d"] ["a", "b", "c", "d"] = 1 →
      adjustedCount [] ["c"] ["a", "b", "c", "d"] ["a", "b", "c", "d"] = 0 ∧
      planTodoShas [] ["c"] ["a", "b", "c", "d"] ["a", "b", "c", "d"]
          = ["a", "b", "c", "d"] ∧
      planUpstream [] ["c"] ["a", "b", "c", "d"] ["a", "b", "c", "d"] true
          = (if true then Upstream.baseParent else Upstream.root))) :=
  ⟨by decide, by decide, by decide,
    squash_edge_correction [] ["c"] ["a", "b", "c", "d"] ["a", "b", "c", "d"]
      true "c" ["d"] (by decide) (by decide) (by decide)⟩

/-- C3 counterexample: with old display order `[c5, c4, c3, c2, c1]`
(newest-first), empty rephrase map and squash set, and requested new
order `[c5, c4, c3]` (`c2` and `c1` dropped from the tail of the
displayed list), the driver does NOT resolve to a hard reset: the
common prefix is empty (oldest-first the sequences start `c1` vs `c3`),
so it performs a full-range rebase replaying `c3, c4, c5` and never
issues `git reset --hard`. -/
theorem truncation_claim_false :
    (runInteractiveRebase "c1" ["c5", "c4", "c3", "c2", "c1"]
        ["c5", "c4", "c3"] [] [] envOk).trace
      = [GitCmd.revParseParent "c1", GitCmd.rebaseCmd Upstream.baseParent] ∧
    (runInteractiveRebase "c1" ["c5", "c4", "c3", "c2", "c1"]
        ["c5", "c4", "c3"] [] [] envOk).todo
      = [TodoLine.pick "c3", TodoLine.pick "c4", TodoLine.pick "c5"] ∧
    GitCmd.resetHardCmd "c3"
      ∉ (runInteractiveRebase "c1" ["c5", "c4", "c3", "c2", "c1"]
          ["c5", "c4", "c3"] [] [] envOk).trace ∧
    buildPlan [] [] ["c5", "c4", "c3", "c2", "c1"] ["c5", "c4", "c3"] true
      ≠ PlanAction.resetHard "c3" := by
  refine ⟨by decide, by decide, by decide, by decide⟩

/-- C3 amended: dropping commits from the head (newest end) of the
displayed list is what degrades to a hard reset: with old display order
`[c5, c4, c3, c2, c1]` and requested new order `[c3, c2, c1]` (`c5` and
`c4` dropped), the plan resolves to `git reset --hard c3`, the rebase
machinery is bypassed and no rebase instructions are emitted. -/
theorem truncation_head_drop_resets :
    buildPlan [] [] ["c5", "c4", "c3", "c2", "c1"] ["c3", "c2", "c1"] true
      = PlanAction.resetHard "c3" ∧
    (runInteractiveRebase "c1" ["c5", "c4", "c3", "c2", "c1"]
        ["c3", "c2", "c1"] [] [] envOk).trace
      = [GitCmd.resetHardCmd "c3"] ∧
    (runInteractiveRebase "c1" ["c5", "c4", "c3", "c2", "c1"]
        ["c3", "c2", "c1"] [] [] envOk).todo = [] ∧
    (runInteractiveRebase "c1" ["c5", "c4", "c3", "c2", "c1"]
        ["c3", "c2", "c1"] [] [] envOk).ok = true := by
  refine ⟨by decide, by decide, by decide, by decide⟩

/-- C4.  Idempotence of no-op plans: with the new order equal to the
current display order, an empty rephrase map and an empty squash set,
the replay instruction list is empty (the reset fast-track bypasses the
rebase machinery, issuing only `git reset --hard` to the anchor) and the
upstream anchor is the newest element's SHA. -/
theorem noop_plan (cs : Sha) (d : List Sha) (hasParent : Bool) (env : GitEnv)
    (hne : d ≠ []) :
    buildPlan [] [] d d hasParent = PlanAction.resetHard (d.headD "") ∧
    planTodoShas [] [] d.reverse d.reverse = [] ∧
    (runInteractiveRebase cs d d [] [] env).todo = [] ∧
    (runInteractiveRebase cs d d [] [] env).trace
      = [GitCmd.resetHardCmd (d.headD "")] := by
  have hlen : 0 < d.length := List.length_pos.mpr hne
  have hcc : commonCount [] [] d.reverse d.reverse = d.length := by
    rw [commonCount_self, List.length_reverse]
  have hdrop : d.reverse.drop (commonCount [] [] d.reverse d.reverse) = [] := by
    rw [hcc]
    exact List.drop_eq_nil_of_le (by rw [List.length_reverse])
  have hadj : adjustedCount [] [] d.reverse d.reverse = d.length := by
    rw [adjustedCount_of_drop_nil hdrop, hcc]
  have htodo : planTodoShas [] [] d.reverse d.reverse = [] := by
    unfold planTodoShas
    rw [hadj]
    exact List.drop_eq_nil_of_le (by rw [List.length_reverse])
  have htarget : d.reverse.getD (adjustedCount [] [] d.reverse d.reverse - 1) ""
      = d.headD "" := by
    rw [hadj]
    exact reverse_getD_last hne
  refine ⟨?_, htodo, ?_, ?_⟩
  · unfold buildPlan
    rw [if_pos ⟨htodo, hadj ▸ hlen⟩, htarget]
  · unfold runInteractiveRebase
    rw [if_pos ⟨htodo, hadj ▸ hlen⟩]
    by_cases hr : env.resetOk = true <;> simp [hr]
  · unfold runInteractiveRebase
    rw [if_pos ⟨htodo, hadj ▸ hlen⟩]
    have hprobe : ¬(adjustedCount [] [] d.reverse d.reverse = 0) := by omega
    by_cases hr : env.resetOk = true <;> simp [hr, hprobe] <;>
      simpa using htarget

/-- C4 witness at the display order `[b, a]`. -/
theorem noop_plan_witness :
    (["b", "a"] : List Sha) ≠ [] ∧
    (buildPlan [] [] ["b", "a"] ["b", "a"] true
        = PlanAction.resetHard ((["b", "a"] : List Sha).headD "") ∧
      planTodoShas [] [] (["b", "a"] : List Sha).reverse
          (["b", "a"] : List Sha).reverse = [] ∧
      (runInteractiveRebase "a" ["b", "a"] ["b", "a"] [] [] envOk).todo = [] ∧
      (runInteractiveRebase "a" ["b", "a"] ["b", "a"] [] [] envOk).trace
        = [GitCmd.resetHardCmd ((["b", "a"] : List Sha).headD "")]) :=
  ⟨by decide, noop_plan "a" ["b", "a"] true envOk (by decide)⟩

/-- C9.  First emitted instruction is a pick: whenever the adjusted
common prefix is non-empty, the head of the replay suffix is not a
squash member — a single one-position pushback always suffices, because
a commit admitted to the unchanged prefix is by construction not a
squash member — so the first line written by the sequence editor is a
`pick`. -/
theorem leading_instruction_is_pick (reph : List (Sha × String)) (squ : List Sha)
    (oldOrder newOrder : List Sha) (files : List (Sha × String))
    (t : Sha) (rest : List Sha)
    (hpos : 0 < adjustedCount reph squ oldOrder newOrder)
    (htodo : planTodoShas reph squ oldOrder newOrder = t :: rest) :
    squ.contains t = false ∧
    (emitTodo squ files (planTodoShas reph squ oldOrder newOrder)).head?
      = some (TodoLine.pick t) := by
  have hmain : squ.contains t = false := by
    rcases hdrop : newOrder.drop (commonCount reph squ oldOrder newOrder) with
      _ | ⟨u, us⟩
    · have hadj := adjustedCount_of_drop_nil hdrop
      unfold planTodoShas at htodo
      rw [hadj, hdrop] at htodo
      cases htodo
    · have hadj := adjustedCount_of_drop_cons hdrop
      by_cases h0 : 0 < commonCount reph squ oldOrder newOrder
      · by_cases hu : squ.contains u = true
        · by_cases h1 : 1 < commonCount reph squ oldOrder newOrder
          · rw [if_pos h0, if_pos hu, if_pos h1] at hadj
            have hlt : commonCount reph squ oldOrder newOrder < newOrder.length :=
              lt_length_of_drop_cons hdrop
            have h2 : commonCount reph squ oldOrder newOrder - 1 < newOrder.length :=
              Nat.lt_of_le_of_lt (Nat.sub_le _ _) hlt
            have hsucc : commonCount reph squ oldOrder newOrder - 1 + 1
                = commonCount reph squ oldOrder newOrder :=
              Nat.succ_pred_eq_of_pos h0
            unfold planTodoShas at htodo
            rw [hadj, drop_eq_getD_cons h2, hsucc] at htodo
            have hcom := isCommon_of_lt_commonCount reph squ oldOrder newOrder
              (commonCount reph squ oldOrder newOrder - 1) (Nat.sub_lt h0 Nat.one_pos)
            obtain ⟨heq, -, hsq⟩ := isCommon_components hcom
            injection htodo with hth hrest
            rw [← hth, ← heq]
            exact hsq
          · rw [if_pos h0, if_pos hu, if_neg h1] at hadj
            omega
        · have hu' : squ.contains u = false := by
            cases hcu : squ.contains u with
            | false => rfl
            | true => exact absurd hcu hu
          rw [if_pos h0, if_neg (by rw [hu']; exact Bool.false_ne_true)] at hadj
          unfold planTodoShas at htodo
          rw [hadj, hdrop] at htodo
          injection htodo with hth hrest
          rw [← hth]
          exact hu'
      · rw [if_neg h0] at hadj
        omega
  refine ⟨hmain, ?_⟩
  rw [htodo]
  unfold emitTodo
  rw [hmain]
  rfl

/-- C9 witness: the pushback case of the concrete input used for C2:
the replay suffix after correction starts with the common commit `b`,
which is not a squash member, so the first emitted line is `pick b`. -/
theorem leading_instruction_is_pick_witness :
    0 < adjustedCount [] ["c"] ["a", "b", "c", "d"] ["a", "b", "c", "d"] ∧
    planTodoShas [] ["c"] ["a", "b", "c", "d"] ["a", "b", "c", "d"]
      = "b" :: ["c", "d"] ∧
    ((["c"] : List Sha).contains "b" = false ∧
      (emitTodo ["c"] []
          (planTodoShas [] ["c"] ["a", "b", "c", "d"] ["a", "b", "c", "d"])).head?
        = some (TodoLine.pick "b")) :=
  ⟨by decide, by decide,
    leading_instruction_is_pick [] ["c"] ["a", "b", "c", "d"]
      ["a", "b", "c", "d"] [] "b" ["c", "d"] (by decide) (by decide)⟩

/-! ### Lemmas about the message-file emission -/

theorem emitTodo_cons (squ : List Sha) (files : List (Sha × String)) (s : Sha)
    (rest : List Sha) :
    emitTodo squ files (s :: rest)
      = (if squ.contains s then TodoLine.squash s else TodoLine.pick s) ::
          ((match files.lookup s with
            | some p => [TodoLine.execAmendFile p]
            | none => []) ++ emitTodo squ files rest) := by
  cases hfl : files.lookup s <;> simp [emitTodo, hfl]

theorem lookup_msgFiles {reph : List (Sha × String)} {todoShas : List Sha}
    {sha : Sha} {msg : String} (hmem : (sha, msg) ∈ reph)
    (hts : sha ∈ todoShas) :
    (msgFiles reph todoShas).lookup sha = some (msgPath sha) := by
  induction reph with
  | nil => cases hmem
  | cons p ps ih =>
    by_cases hc : p.1 ∈ todoShas
    · have hstep : msgFiles (p :: ps) todoShas
          = (p.1, msgPath p.1) :: msgFiles ps todoShas := by
        simp [msgFiles, List.filterMap_cons, hc]
      rw [hstep]
      by_cases hpe : (sha == p.1) = true
      · have hpeq : sha = p.1 := by simpa using hpe
        simp [List.lookup, hpe, ← hpeq]
      · rcases List.mem_cons.mp hmem with h1 | h2
        · refine absurd ?_ hpe
          rw [← h1]
          simp
        · simp only [List.lookup, hpe]
          exact ih h2
    · have hstep : msgFiles (p :: ps) todoShas = msgFiles ps todoShas := by
        simp [msgFiles, List.filterMap_cons, hc]
      rcases List.mem_cons.mp hmem with h1 | h2
      · refine absurd hts ?_
        rw [← h1] at hc
        exact hc
      · rw [hstep]
        exact ih h2

theorem execAmendFile_mem_emitTodo {squ : List Sha}
    {files : List (Sha × String)} {ts : List Sha} {sha : Sha} {p : String}
    (hs : sha ∈ ts) (hl : files.lookup sha = some p) :
    TodoLine.execAmendFile p ∈ emitTodo squ files ts := by
  induction ts with
  | nil => cases hs
  | cons a rest ih =>
    rw [emitTodo_cons]
    rcases List.mem_cons.mp hs with h1 | h2
    · subst h1
      refine List.mem_cons_of_mem _ ?_
      rw [hl]
      exact List.mem_append_left _ (List.mem_cons_self _ _)
    · exact List.mem_cons_of_mem _ (List.mem_append_right _ (ih h2))

theorem hasInlineMsg_emitTodo (squ : List Sha) (files : List (Sha × String)) :
    ∀ ts, hasInlineMsg (emitTodo squ files ts) = false := by
  intro ts
  induction ts with
  | nil => rfl
  | cons a rest ih =>
    rw [emitTodo_cons]
    by_cases hc : a ∈ squ <;>
      cases hfl : files.lookup a with
      | some q =>
        simp [hasInlineMsg, List.any_cons, List.any_append, hc, hfl]
        simpa [hasInlineMsg] using ih
      | none =>
        simp [hasInlineMsg, List.any_cons, List.any_append, hc, hfl]
        simpa [hasInlineMsg] using ih

/-! ### Driver theorems -/

/-- C10.  Session anchor unchanged on failure: every invocation of the
optimized driver that returns `False` — failed reset fast-track, or
rebase exiting non-zero — leaves `self.commit_sha` at exactly its
pre-call value. -/
theorem anchor_unchanged_on_failure (cs : Sha) (display newShas : List Sha)
    (reph : List (Sha × String)) (squ : List Sha) (env : GitEnv)
    (hfail : (runInteractiveRebase cs display newShas reph squ env).ok = false) :
    (runInteractiveRebase cs display newShas reph squ env).commitSha = cs := by
  by_cases h1 : (planTodoShas reph squ display.reverse newShas.reverse = [] ∧
      0 < adjustedCount reph squ display.reverse newShas.reverse)
  · by_cases h2 : env.resetOk = true
    · simp [runInteractiveRebase, h1, h2] at hfail
    · simp [runInteractiveRebase, h1, h2]
  · by_cases h3 : env.rebaseExit = 0
    · simp [runInteractiveRebase, h1, h3] at hfail
    · simp [runInteractiveRebase, h1, h3]

/-- C10 witness: a failed swap of two commits leaves the anchor at its
pre-call value. -/
theorem anchor_unchanged_on_failure_witness :
    (runInteractiveRebase "base" ["b", "a"] ["a", "b"] [] [] envFail).ok
      = false ∧
    (runInteractiveRebase "base" ["b", "a"] ["a", "b"] [] [] envFail).commitSha
      = "base" :=
  ⟨by decide,
    anchor_unchanged_on_failure "base" ["b", "a"] ["a", "b"] [] [] envFail
      (by decide)⟩

/-- C5.  Abort-on-failure atomicity: whenever the rebase subprocess
exits non-zero, both drivers issue `git rebase --abort` as their final
git command and return `False` without touching the session anchor; in
the abstract repository semantics the abort restores the pre-invocation
HEAD and leaves no rebase in progress.  (For the optimized driver the
hypothesis excludes the reset fast-track, on which no rebase subprocess
runs at all.) -/
theorem abort_on_failure (cs : Sha) (display newShas : List Sha)
    (reph : List (Sha × String)) (squ : List Sha) (env : GitEnv)
    (st : RepoState) (hfail : ¬env.rebaseExit = 0)
    (hplan : ¬(planTodoShas reph squ display.reverse newShas.reverse = [] ∧
        0 < adjustedCount reph squ display.reverse newShas.reverse)) :
    ((runInteractiveRebase cs display newShas reph squ env).ok = false ∧
      (runInteractiveRebase cs display newShas reph squ env).commitSha = cs ∧
      (runInteractiveRebase cs display newShas reph squ env).trace.getLast?
        = some GitCmd.rebaseAbort ∧
      (runTrace env st
          (runInteractiveRebase cs display newShas reph squ env).trace).head
        = st.head ∧
      (runTrace env st
          (runInteractiveRebase cs display newShas reph squ env).trace).midRebase
        = false) ∧
    ((runInteractiveRebaseLegacy cs newShas reph squ env).ok = false ∧
      (runInteractiveRebaseLegacy cs newShas reph squ env).commitSha = cs ∧
      (runInteractiveRebaseLegacy cs newShas reph squ env).trace.getLast?
        = some GitCmd.rebaseAbort ∧
      (runTrace env st
          (runInteractiveRebaseLegacy cs newShas reph squ env).trace).head
        = st.head ∧
      (runTrace env st
          (runInteractiveRebaseLegacy cs newShas reph squ env).trace).midRebase
        = false) := by
  constructor
  · by_cases hc : adjustedCount reph squ display.reverse newShas.reverse = 0 <;>
      simp [runInteractiveRebase, hplan, hfail, hc, runTrace, applyCmd]
  · simp [runInteractiveRebaseLegacy, hfail, runTrace, applyCmd]

/-- C5 witness: a failed swap of two commits, run from the state with
HEAD `H`: the driver aborts and the abstract repository ends with HEAD
`H` and no rebase in progress. -/
theorem abort_on_failure_witness :
    ¬envFail.rebaseExit = 0 ∧
    ¬(planTodoShas [] [] (["b", "a"] : List Sha).reverse
          (["a", "b"] : List Sha).reverse = [] ∧
        0 < adjustedCount [] [] (["b", "a"] : List Sha).reverse
          (["a", "b"] : List Sha).reverse) ∧
    ((runInteractiveRebase "base" ["b", "a"] ["a", "b"] [] [] envFail).ok
        = false ∧
      (runInteractiveRebase "base" ["b", "a"] ["a", "b"] [] [] envFail).trace.getLast?
        = some GitCmd.rebaseAbort ∧
      (runTrace envFail ⟨"H", false, "S"⟩
          (runInteractiveRebase "base" ["b", "a"] ["a", "b"] [] [] envFail).trace).head
        = "H" ∧
      (runTrace envFail ⟨"H", false, "S"⟩
          (runInteractiveRebase "base" ["b", "a"] ["a", "b"] [] [] envFail).trace).midRebase
        = false ∧
      (runInteractiveRebaseLegacy "base" ["a", "b"] [] [] envFail).ok = false ∧
      (runTrace envFail ⟨"H", false, "S"⟩
          (runInteractiveRebaseLegacy "base" ["a", "b"] [] [] envFail).trace).head
        = "H") :=
  ⟨by decide, by decide, by
    have h := abort_on_failure "base" ["b", "a"] ["a", "b"] [] [] envFail
      ⟨"H", false, "S"⟩ (by decide) (by decide)
    exact ⟨h.1.1, h.1.2.2.1, h.1.2.2.2.1, h.1.2.2.2.2, h.2.1, h.2.2.2.2.1⟩⟩

/-- C6 counterexample: a successful invocation of the optimized driver
with a non-empty new order of length 2 — current display `[b, a]`, same
requested order, `a` a rephrase target — does NOT recompute the anchor
by resolving `HEAD~(n-1)`: the environment resolves `HEAD~1` to `h1`
(the rewritten bottom commit), but the driver issues no `rev-parse
HEAD~1` and sets the anchor to the pre-rebase SHA `a` instead. -/
theorem anchor_recompute_claim_false :
    (runInteractiveRebase "base" ["b", "a"] ["b", "a"] [("a", "m")] [] envOk).ok
      = true ∧
    (runInteractiveRebase "base" ["b", "a"] ["b", "a"] [("a", "m")] []
        envOk).commitSha = "a" ∧
    envOk.headBack (2 - 1) = some "h1" ∧
    ¬(runInteractiveRebase "base" ["b", "a"] ["b", "a"] [("a", "m")] []
        envOk).commitSha = "h1" ∧
    GitCmd.revParseBack 1
      ∉ (runInteractiveRebase "base" ["b", "a"] ["b", "a"] [("a", "m")] []
          envOk).trace := by
  refine ⟨by decide, by decide, rfl, by decide, by decide⟩

/-- C6 amended: the two drivers update the anchor differently on
success.  The legacy driver recomputes the new bottom-most SHA by
resolving `HEAD~(n-1)` and adopts the result when the resolution
succeeds (keeping the old anchor when it fails); the optimized driver
never issues that resolution and instead sets the anchor directly to
the last (oldest) element of the requested new order, i.e. that
commit's pre-rebase SHA. -/
theorem anchor_update_rules (cs : Sha) (display newShas : List Sha)
    (reph : List (Sha × String)) (squ : List Sha) (env : GitEnv)
    (hok : env.rebaseExit = 0) (hne : newShas ≠ []) :
    ((runInteractiveRebaseLegacy cs newShas reph squ env).ok = true ∧
      GitCmd.revParseBack (newShas.length - 1)
        ∈ (runInteractiveRebaseLegacy cs newShas reph squ env).trace ∧
      (runInteractiveRebaseLegacy cs newShas reph squ env).commitSha
        = (env.headBack (newShas.length - 1)).getD cs) ∧
    (¬(planTodoShas reph squ display.reverse newShas.reverse = [] ∧
        0 < adjustedCount reph squ display.reverse newShas.reverse) →
      (runInteractiveRebase cs display newShas reph squ env).ok = true ∧
      (runInteractiveRebase cs display newShas reph squ env).commitSha
        = newShas.getLastD cs ∧
      GitCmd.revParseBack (newShas.length - 1)
        ∉ (runInteractiveRebase cs display newShas reph squ env).trace) := by
  have hlen : 0 < newShas.length := List.length_pos.mpr hne
  constructor
  · cases hb : env.headBack (newShas.length - 1) with
    | some s => simp [runInteractiveRebaseLegacy, hok, hlen, hb]
    | none => simp [runInteractiveRebaseLegacy, hok, hlen, hb]
  · intro hplan
    by_cases hc : adjustedCount reph squ display.reverse newShas.reverse = 0 <;>
      simp [runInteractiveRebase, hplan, hok, hc]

/-- C6 amended witness: a swap of two commits, rebase succeeding: the
legacy driver adopts the `HEAD~1` resolution `h1`; the optimized driver
sets the anchor to `b`, the oldest element of the requested order, and
issues no `HEAD~1` resolution. -/
theorem anchor_update_rules_witness :
    envOk.rebaseExit = 0 ∧ (["a", "b"] : List Sha) ≠ [] ∧
    ¬(planTodoShas [] [] (["b", "a"] : List Sha).reverse
          (["a", "b"] : List Sha).reverse = [] ∧
        0 < adjustedCount [] [] (["b", "a"] : List Sha).reverse
          (["a", "b"] : List Sha).reverse) ∧
    ((runInteractiveRebaseLegacy "base" ["a", "b"] [] [] envOk).ok = true ∧
      GitCmd.revParseBack ((["a", "b"] : List Sha).length - 1)
        ∈ (runInteractiveRebaseLegacy "base" ["a", "b"] [] [] envOk).trace ∧
      (runInteractiveRebaseLegacy "base" ["a", "b"] [] [] envOk).commitSha
        = (envOk.headBack ((["a", "b"] : List Sha).length - 1)).getD "base") ∧
    ((runInteractiveRebase "base" ["b", "a"] ["a", "b"] [] [] envOk).ok
        = true ∧
      (runInteractiveRebase "base" ["b", "a"] ["a", "b"] [] [] envOk).commitSha
        = (["a", "b"] : List Sha).getLastD "base" ∧
      GitCmd.revParseBack ((["a", "b"] : List Sha).length - 1)
        ∉ (runInteractiveRebase "base" ["b", "a"] ["a", "b"] [] []
            envOk).trace) :=
  ⟨rfl, by decide, by decide,
    (anchor_update_rules "base" ["b", "a"] ["a", "b"] [] [] envOk rfl
      (by decide)).1,
    (anchor_update_rules "base" ["b", "a"] ["a", "b"] [] [] envOk rfl
      (by decide)).2 (by decide)⟩

/-- C7 amended: in the optimized driver every rephrase whose target SHA
is in the replay window has its message written to a separate temp file
(recorded among the driver's file writes) and referenced by path via an
`exec git commit --amend -F <path>` line in the emitted todo, and no
line of that todo embeds a message inline; the legacy driver instead
embeds the shlex-quoted message directly in an
`exec git commit --amend -m` instruction line (see the
counterexample). -/
theorem rephrase_message_via_file (cs : Sha) (display newShas : List Sha)
    (reph : List (Sha × String)) (squ : List Sha) (env : GitEnv)
    (sha : Sha) (msg : String) (hmem : (sha, msg) ∈ reph)
    (htodo : sha ∈ planTodoShas reph squ display.reverse newShas.reverse) :
    (msgPath sha, msg)
      ∈ (runInteractiveRebase cs display newShas reph squ env).msgWrites ∧
    TodoLine.execAmendFile (msgPath sha)
      ∈ (runInteractiveRebase cs display newShas reph squ env).todo ∧
    hasInlineMsg (runInteractiveRebase cs display newShas reph squ env).todo
      = false := by
  have hnil : planTodoShas reph squ display.reverse newShas.reverse ≠ [] :=
    List.ne_nil_of_mem htodo
  have hplan : ¬(planTodoShas reph squ display.reverse newShas.reverse = [] ∧
      0 < adjustedCount reph squ display.reverse newShas.reverse) :=
    fun h => hnil h.1
  have hlook := lookup_msgFiles hmem htodo
  have hmw : (msgPath sha, msg)
      ∈ msgFileWrites reph
          (planTodoShas reph squ display.reverse newShas.reverse) := by
    simp only [msgFileWrites, List.mem_filterMap]
    exact ⟨(sha, msg), hmem, by simp [htodo]⟩
  have hmt := @execAmendFile_mem_emitTodo squ _ _ _ _ htodo hlook
  by_cases h3 : env.rebaseExit = 0 <;>
    simp [runInteractiveRebase, hplan, h3, hmw, hmt, hasInlineMsg_emitTodo]

/-- C7 witness: rephrasing the single displayed commit `a`: the message
is written to `a`'s message file, the todo references it by path, and no
todo line embeds a message. -/
theorem rephrase_message_via_file_witness :
    (("a" : Sha), ("m" : String)) ∈ [(("a" : Sha), ("m" : String))] ∧
    ("a" : Sha) ∈ planTodoShas [("a", "m")] [] (["a"] : List Sha).reverse
        (["a"] : List Sha).reverse ∧
    ((msgPath "a", "m")
        ∈ (runInteractiveRebase "base" ["a"] ["a"] [("a", "m")] []
            envOk).msgWrites ∧
      TodoLine.execAmendFile (msgPath "a")
        ∈ (runInteractiveRebase "base" ["a"] ["a"] [("a", "m")] []
            envOk).todo ∧
      hasInlineMsg (runInteractiveRebase "base" ["a"] ["a"] [("a", "m")] []
          envOk).todo = false) :=
  ⟨by decide, by decide,
    rephrase_message_via_file "base" ["a"] ["a"] [("a", "m")] [] envOk
      "a" "m" (by decide) (by decide)⟩

/-- C7 counterexample: the legacy driver embeds the rephrase message in
an instruction line.  Rephrasing commit `a` to "fix bug" emits the todo
`[pick a, exec git commit --amend -m 'fix bug']` — the message sits
inside the `exec` line — and writes no message file; no `--amend -F`
line referencing a path is emitted. -/
theorem rephrase_embed_claim_false :
    (runInteractiveRebaseLegacy "base" ["a"] [("a", "fix bug")] [] envOk).todo
      = [TodoLine.pick "a", TodoLine.execAmendMsg "fix bug"] ∧
    TodoLine.execAmendMsg "fix bug"
      ∈ (runInteractiveRebaseLegacy "base" ["a"] [("a", "fix bug")] []
          envOk).todo ∧
    hasInlineMsg (runInteractiveRebaseLegacy "base" ["a"] [("a", "fix bug")]
        [] envOk).todo = true ∧
    TodoLine.execAmendFile (msgPath "a")
      ∉ (runInteractiveRebaseLegacy "base" ["a"] [("a", "fix bug")] []
          envOk).todo ∧
    (runInteractiveRebaseLegacy "base" ["a"] [("a", "fix bug")] []
        envOk).msgWrites = [] := by
  refine ⟨by decide, by decide, by decide, by decide, by decide⟩

/-- C8: evaluation of `perform_multi_squash`'s marshalling at the
failing input.  Display `[c5, c4, c3, c2, c1]`, selected contiguous set
`[c4, c3]` (collected newest-first): the code picks the NEWEST member
`c4` (`base_sha = selected_shas[0]`) and marks the OLDEST member `c3`
as `squash`, so the emitted oldest-first todo is
`[pick c2, squash c3, pick c4, exec --amend -F <c4 file>, pick c5]`: the
squash folds `c3` into the unselected older neighbour `c2`, and `c4`
survives as a separate pick — the set is not collapsed into the position
of its oldest member, contradicting the spec and the function's own
docstring. -/
theorem multi_squash_marks_oldest_as_squash :
    (runInteractiveRebase "c1" ["c5", "c4", "c3", "c2", "c1"]
        (multiSquashArgs ["c4", "c3"] "m" ["c5", "c4", "c3", "c2", "c1"]).newShas
        (multiSquashArgs ["c4", "c3"] "m" ["c5", "c4", "c3", "c2", "c1"]).reph
        (multiSquashArgs ["c4", "c3"] "m" ["c5", "c4", "c3", "c2", "c1"]).squ
        envOk).todo
      = [TodoLine.pick "c2", TodoLine.squash "c3", TodoLine.pick "c4",
         TodoLine.execAmendFile (msgPath "c4"), TodoLine.pick "c5"] ∧
    TodoLine.squash "c3"
      ∈ (runInteractiveRebase "c1" ["c5", "c4", "c3", "c2", "c1"]
          (multiSquashArgs ["c4", "c3"] "m" ["c5", "c4", "c3", "c2", "c1"]).newShas
          (multiSquashArgs ["c4", "c3"] "m" ["c5", "c4", "c3", "c2", "c1"]).reph
          (multiSquashArgs ["c4", "c3"] "m" ["c5", "c4", "c3", "c2", "c1"]).squ
          envOk).todo ∧
    TodoLine.pick "c3"
      ∉ (runInteractiveRebase "c1" ["c5", "c4", "c3", "c2", "c1"]
          (multiSquashArgs ["c4", "c3"] "m" ["c5", "c4", "c3", "c2", "c1"]).newShas
          (multiSquashArgs ["c4", "c3"] "m" ["c5", "c4", "c3", "c2", "c1"]).reph
          (multiSquashArgs ["c4", "c3"] "m" ["c5", "c4", "c3", "c2", "c1"]).squ
          envOk).todo ∧
    TodoLine.squash "c4"
      ∉ (runInteractiveRebase "c1" ["c5", "c4", "c3", "c2", "c1"]
          (multiSquashArgs ["c4", "c3"] "m" ["c5", "c4", "c3", "c2", "c1"]).newShas
          (multiSquashArgs ["c4", "c3"] "m" ["c5", "c4", "c3", "c2", "c1"]).reph
          (multiSquashArgs ["c4", "c3"] "m" ["c5", "c4", "c3", "c2", "c1"]).squ
          envOk).todo := by
  refine ⟨by decide, by decide, by decide, by decide⟩

end GitRebase
